import Mathlib

/-!
Verification of the pymodbus message layer (src/pymodbus/transport/message.py)
against its natural-language specification.

The file embeds the source shallowly: the `ModbusMessage` class becomes a
record of its attributes, its methods become state-passing functions, and the
parts of the repository that the message layer interacts with but whose code is
not in the given sources (the `ModbusProtocol` base class and the framing
algorithms the spec documents) are modelled from the spec, each with a doc
comment saying so.
-/

namespace PyModbus

/-- Source: class CommHeaderType(Enum), members SOCKET=1, TLS=2, RTU=3,
ASCII=4, BINARY=5. -/
inductive CommHeaderType where
  | SOCKET
  | TLS
  | RTU
  | ASCII
  | BINARY
deriving DecidableEq, Repr

/-- Modelled from the spec: the static configuration held by `CommParams`
(defined in pymodbus/transport/transport.py, which is not among the given
sources).  The spec only calls it "configuration"; the concrete fields stand
for that configuration and the claims only ever compare them for equality. -/
structure CommParamsBase where
  comm_name : String
  reconnect_delay : Nat
deriving DecidableEq, Repr

/-- The data captured by the `new_connection_class` lambda installed by
`ModbusMessage.__init__`: the header type and the owning instance's
configuration.  In Python the lambda closes over `self`; since the spawned
instance immediately overwrites the factory field of the parameters it is
given, the closure is fully described by this captured data. -/
structure FactoryVal where
  headerType : CommHeaderType
  base : CommParamsBase
deriving DecidableEq, Repr

/-- Modelled from the spec: `CommParams` (pymodbus/transport/transport.py, not
among the given sources) as used by the message layer: the static
configuration plus the `new_connection_class` attribute that
`ModbusMessage.__init__` assigns. -/
structure CommParams where
  base : CommParamsBase
  new_connection_class : Option FactoryVal
deriving DecidableEq, Repr

/-- Source: the header classes `HeaderSocket`, `HeaderTLS`, `HeaderRTU`,
`HeaderASCII`, `HeaderBinary` (all subclasses of `ModbusHeader`); each stores
only a back reference to the owning message instance, modelled by that
instance's identity. -/
inductive ModbusHeader where
  | HeaderSocket (message : Nat)
  | HeaderTLS (message : Nat)
  | HeaderRTU (message : Nat)
  | HeaderASCII (message : Nat)
  | HeaderBinary (message : Nat)
deriving DecidableEq, Repr

/-- The `message` attribute every header class sets in its initializer. -/
def ModbusHeader.message : ModbusHeader → Nat
  | .HeaderSocket i => i
  | .HeaderTLS i => i
  | .HeaderRTU i => i
  | .HeaderASCII i => i
  | .HeaderBinary i => i

/-- Which `CommHeaderType` a header object is the variant for. -/
def ModbusHeader.variant : ModbusHeader → CommHeaderType
  | .HeaderSocket _ => .SOCKET
  | .HeaderTLS _ => .TLS
  | .HeaderRTU _ => .RTU
  | .HeaderASCII _ => .ASCII
  | .HeaderBinary _ => .BINARY

/-- A `ModbusMessage` instance: `id` models object identity, `comm_params` and
`is_server` are the attributes stored by the `ModbusProtocol` base class
(modelled from the spec, its code is not among the given sources), `header` is
the attribute set at the end of `ModbusMessage.__init__`, `recv_buffer` is the
transport accumulation buffer and `sent_log` records the byte strings handed
to `transport_send`, in order. -/
structure ModbusMessage where
  id : Nat
  comm_params : CommParams
  is_server : Bool
  header : ModbusHeader
  recv_buffer : List Nat
  sent_log : List (List Nat)
deriving DecidableEq, Repr

/-- Python dict lookup over an association list, mirroring the literal
dictionary indexed by `headerType` in `ModbusMessage.__init__` (a missing key
raises, modelled by `none`). -/
def dictLookup {α β : Type} [DecidableEq α] : List (α × β) → α → Option β
  | [], _ => none
  | (k, v) :: rest, key => if key = k then some v else dictLookup rest key

/-- The dictionary literal of `ModbusMessage.__init__`, line 59: each header
type mapped to a freshly constructed header object holding the instance. -/
def header_table (selfId : Nat) : List (CommHeaderType × ModbusHeader) :=
  [(CommHeaderType.SOCKET, ModbusHeader.HeaderSocket selfId),
   (CommHeaderType.TLS, ModbusHeader.HeaderTLS selfId),
   (CommHeaderType.RTU, ModbusHeader.HeaderRTU selfId),
   (CommHeaderType.ASCII, ModbusHeader.HeaderASCII selfId),
   (CommHeaderType.BINARY, ModbusHeader.HeaderBinary selfId)]

/-- The assignment `params.new_connection_class = lambda: ...` performed at
the top of `ModbusMessage.__init__`, before `super().__init__` runs: the
caller-supplied params with the factory field overwritten. -/
def initParams (headerType : CommHeaderType) (params : CommParams) : CommParams :=
  { params with new_connection_class := some ⟨headerType, params.base⟩ }

/-- Source: `ModbusMessage.__init__(headerType, params, is_server)`.  It first
overwrites `params.new_connection_class` with the factory lambda, then runs
`super().__init__(params, is_server)` (modelled from the spec: the base class
stores the configuration and role and starts with an empty accumulation
buffer), then selects `self.header` by dictionary lookup on `headerType`.
`selfId` models the identity of the object under construction; `none` models
the `KeyError` a failed dictionary lookup would raise. -/
def mkModbusMessage (selfId : Nat) (headerType : CommHeaderType)
    (params : CommParams) (is_server : Bool) : Option ModbusMessage :=
  let params2 := initParams headerType params
  match dictLookup (header_table selfId) headerType with
  | some h => some
      { id := selfId
        comm_params := params2
        is_server := is_server
        header := h
        recv_buffer := []
        sent_log := [] }
  | none => none

/-- Invoking the `new_connection_class` lambda with a fresh object identity:
`ModbusMessage(headerType, self.comm_params, False)`.  At call time the owner's
`comm_params.new_connection_class` is the owner's own factory, so the params
value passed down is the captured base configuration with the factory field
pointing at the captured factory data. -/
def runFactory (fac : FactoryVal) (freshId : Nat) : Option ModbusMessage :=
  mkModbusMessage freshId fac.headerType ⟨fac.base, some fac⟩ false

/-- Source: `ModbusMessage.callback_data(data, addr)` logs the received bytes
and returns 0.  The result triple is (instance state after the call, returned
byte count, application callbacks invoked); the source mutates nothing,
invokes no callback and returns the literal 0. -/
def ModbusMessage.callback_data (self : ModbusMessage) (data : List Nat)
    (addr : Option (Nat × Nat)) : ModbusMessage × Nat × List (List Nat) :=
  let _ := data
  let _ := addr
  (self, 0, [])

/-- Modelled from the spec: `ModbusProtocol.transport_send` (pymodbus/
transport/transport.py, not among the given sources) hands the bytes to the
transport; the model records them on the wire log. -/
def ModbusMessage.transport_send (self : ModbusMessage) (data : List Nat)
    (addr : Option (Nat × Nat)) : ModbusMessage :=
  let _ := addr
  { self with sent_log := self.sent_log ++ [data] }

/-- Source: `ModbusMessage.message_send(data, addr)` logs and calls
`self.transport_send(data, addr=addr)` with the caller's bytes unchanged. -/
def ModbusMessage.message_send (self : ModbusMessage) (data : List Nat)
    (addr : Option (Nat × Nat)) : ModbusMessage :=
  self.transport_send data addr

/-- Modelled from the spec: the transport's inbound delivery
(`deliver(connection, bytes)` of the spec; `ModbusProtocol.data_received` in
the code base, not among the given sources): append the new bytes to the
accumulation buffer, call `callback_data` with the accumulated bytes, and
discard the number of leading bytes the callback reports consumed.  Returns
the new state together with the application callbacks invoked. -/
def ModbusMessage.data_received (self : ModbusMessage) (data : List Nat) :
    ModbusMessage × List (List Nat) :=
  let s1 := { self with recv_buffer := self.recv_buffer ++ data }
  let r := s1.callback_data s1.recv_buffer none
  ({ r.1 with recv_buffer := r.1.recv_buffer.drop r.2.1 }, r.2.2)

/-- Modelled from the spec: the decoded application payload of section 3 of
the spec (the framing code is absent from the given sources; the header
classes are empty placeholders).  `transaction_id` is present only for the
socket/TLS encoding. -/
structure Message where
  unit_id : Nat
  function_code : Nat
  data : List Nat
  transaction_id : Option Nat
deriving DecidableEq, Repr

/-- Modelled from the spec: the tagged decode result of section 3 —
Complete(message, bytes consumed), Incomplete, Invalid(reason). -/
inductive DecodeOutcome where
  | complete (m : Message) (consumed : Nat)
  | incomplete
  | invalid (reason : String)
deriving DecidableEq, Repr

/-- One shift round of the reflected CRC-16 used by Modbus (polynomial
0xA001, reflected). -/
def crc16Round (c : Nat) : Nat :=
  if c % 2 = 1 then (c / 2) ^^^ 0xA001 else c / 2

/-- Fold one byte into the CRC accumulator: xor the byte in, then eight
shift rounds. -/
def crc16Byte (crc b : Nat) : Nat :=
  crc16Round^[8] (crc ^^^ (b % 256))

/-- Modelled from the spec: `crc16(bytes) -> u16`, the standard cyclic
redundancy code of the RTU encoding (section 4.1; the checksum utilities are
absent from the given sources), initial value 0xFFFF, transmitted
least-significant byte first. -/
def crc16 (bs : List Nat) : Nat :=
  bs.foldl crc16Byte 0xFFFF

/-- Modelled from the spec: `lrc(bytes) -> u8`, the two's-complement of the
sum of all bytes modulo 256 (section 4.1; the checksum utilities are absent
from the given sources), realized as the usual invert-and-add-one on the
8-bit sum. -/
def lrc (bs : List Nat) : Nat :=
  (((bs.foldl (· + ·) 0 % 256) ^^^ 255) + 1) % 256

/-- Configured maximum for the MBAP length field: one unit-identifier byte
plus the 253-byte protocol maximum for the payload. -/
def maxSocketLength : Nat := 254

/-- Modelled from the spec: the Socket (MBAP) encoder of section 4.2 —
transaction id (2 bytes big endian), protocol id 0 (2 bytes), length =
unit id + payload (2 bytes big endian), unit id, then function code and
data as the payload. -/
def socketEncode (m : Message) : List Nat :=
  let t := m.transaction_id.getD 0
  let len := 2 + m.data.length
  t / 256 % 256 :: t % 256 :: 0 :: 0 :: len / 256 % 256 :: len % 256 ::
    m.unit_id % 256 :: m.function_code % 256 :: m.data.map (· % 256)

/-- Modelled from the spec: the Socket (MBAP) decoder of section 4.2 —
need at least 6 bytes to read the header; nonzero protocol id, zero length
or length above the configured maximum are Invalid; the frame is complete
once 6 + length bytes are buffered. -/
def socketTryDecode (buf : List Nat) : DecodeOutcome :=
  match buf with
  | b0 :: b1 :: b2 :: b3 :: b4 :: b5 :: rest =>
    if b2 ≠ 0 ∨ b3 ≠ 0 then .invalid "protocol id is not 0"
    else
      let len := 256 * b4 + b5
      if len = 0 ∨ maxSocketLength < len then .invalid "length field out of bounds"
      else if rest.length < len then .incomplete
      else
        match rest with
        | u :: f :: tail =>
          .complete ⟨u, f, tail.take (len - 2), some (256 * b0 + b1)⟩ (6 + len)
        | _ => .invalid "frame too short for a function code"
  | _ => .incomplete

/-- Modelled from the spec: the TLS codec is byte-identical to the Socket
codec (section 4.2). -/
def tlsEncode (m : Message) : List Nat := socketEncode m

/-- Modelled from the spec: the TLS decoder, byte-identical to the Socket
decoder (section 4.2). -/
def tlsTryDecode (buf : List Nat) : DecodeOutcome := socketTryDecode buf

/-- Modelled from the spec: the RTU encoder of section 4.2 — unit id,
function code, payload, then the CRC-16 of everything before it, least
significant byte first. -/
def rtuEncode (m : Message) : List Nat :=
  let body := m.unit_id % 256 :: m.function_code % 256 :: m.data.map (· % 256)
  let crc := crc16 body
  body ++ [crc % 256, crc / 256 % 256]

/-- Modelled from the spec: the RTU decoder of section 4.2 — the frame
boundary is the external inter-frame silence, so the whole buffered frame is
decoded at once; the CRC-16 over all bytes except the trailing two must equal
the trailing two, little endian, otherwise Invalid. -/
def rtuTryDecode (buf : List Nat) : DecodeOutcome :=
  if buf.length < 4 then .incomplete
  else
    let body := buf.take (buf.length - 2)
    let tail := buf.drop (buf.length - 2)
    let recv := tail.getD 0 0 + 256 * tail.getD 1 0
    if crc16 body ≠ recv then .invalid "crc mismatch"
    else
      match body with
      | u :: f :: rest => .complete ⟨u, f, rest, none⟩ buf.length
      | _ => .invalid "frame too short"

/-- The ASCII digit (uppercase) for a hex nibble. -/
def hexDigit (n : Nat) : Nat := if n < 10 then 48 + n else 55 + n

/-- The two ASCII hex digits of a byte, high nibble first. -/
def hexPair (b : Nat) : List Nat := [hexDigit (b / 16 % 16), hexDigit (b % 16)]

/-- Whether an ASCII code is an uppercase hex digit. -/
def isHexDigit (c : Nat) : Bool :=
  decide ((48 ≤ c ∧ c ≤ 57) ∨ (65 ≤ c ∧ c ≤ 70))

/-- The value of an ASCII hex digit. -/
def hexVal (c : Nat) : Nat := if c ≤ 57 then c - 48 else c - 55

/-- Hex-decode an even-length run of hex digits into bytes; `none` on an odd
digit count or a non-hex character. -/
def hexDecode : List Nat → Option (List Nat)
  | [] => some []
  | [_] => none
  | c1 :: c2 :: rest =>
    if isHexDigit c1 && isHexDigit c2 then
      (hexDecode rest).map (fun bs => (16 * hexVal c1 + hexVal c2) :: bs)
    else none

/-- Scan for the CR LF end delimiter; returns the content before it and the
remainder after it, or `none` when no CR LF has arrived yet. -/
def findCRLF : List Nat → Option (List Nat × List Nat)
  | [] => none
  | c :: rest =>
    if c = 13 ∧ rest.head? = some 10 then some ([], rest.tail)
    else (findCRLF rest).map (fun pr => (c :: pr.1, pr.2))

/-- Modelled from the spec: the ASCII encoder of section 4.2 — a ':' start
delimiter, the hex-digit pairs of unit id, function code, payload and LRC,
then the CR LF end delimiter. -/
def asciiEncode (m : Message) : List Nat :=
  let body := m.unit_id % 256 :: m.function_code % 256 :: m.data.map (· % 256)
  58 :: (body ++ [lrc body]).flatMap hexPair ++ [13, 10]

/-- Modelled from the spec: the ASCII decoder of section 4.2 — scan forward
for ':' discarding what precedes it, buffer until CR LF, hex-decode the body
(odd digit count or a non-hex character is Invalid), and require the LRC over
unit id, function code and payload to equal the transmitted LRC byte. -/
def asciiTryDecode (buf : List Nat) : DecodeOutcome :=
  match buf.dropWhile (fun c => c ≠ 58) with
  | [] => .incomplete
  | _ :: afterColon =>
    match findCRLF afterColon with
    | none => .incomplete
    | some (hexBody, rest) =>
      match hexDecode hexBody with
      | none => .invalid "bad hex body"
      | some bytes =>
        match bytes with
        | u :: f :: t1 :: trest =>
          let dataPart := (t1 :: trest).dropLast
          let lrcRecv := (t1 :: trest).getLastD 0
          if lrc (u :: f :: dataPart) = lrcRecv then
            .complete ⟨u, f, dataPart, none⟩ (buf.length - rest.length)
          else .invalid "lrc mismatch"
        | _ => .invalid "frame too short"

/-- The Binary encoding's start delimiter byte (a configuration value, per
section 9 of the spec). -/
def bStart : Nat := 123

/-- The Binary encoding's end delimiter byte. -/
def bEnd : Nat := 125

/-- The Binary encoding's escape byte. -/
def bEsc : Nat := 27

/-- Escape every delimiter- or escape-valued byte by preceding it with the
escape byte. -/
def bEscape (bs : List Nat) : List Nat :=
  bs.flatMap (fun b => if b = bStart ∨ b = bEnd ∨ b = bEsc then [bEsc, b] else [b])

/-- Unescape while scanning for the unescaped end delimiter: returns the
unescaped content and the remainder after the delimiter; `none` when the end
delimiter has not arrived yet (including a dangling escape at the buffer end,
which the spec makes Incomplete rather than Invalid). -/
def binScan : List Nat → Option (List Nat × List Nat)
  | [] => none
  | c :: rest =>
    if c = bEsc then
      match rest with
      | [] => none
      | d :: rest2 => (binScan rest2).map (fun pr => (d :: pr.1, pr.2))
    else if c = bEnd then some ([], rest)
    else (binScan rest).map (fun pr => (c :: pr.1, pr.2))

/-- Modelled from the spec: the Binary encoder of section 4.2 — start
delimiter, then unit id, function code, payload and the little-endian CRC-16
of the body with delimiter-valued bytes escaped, then the end delimiter. -/
def binaryEncode (m : Message) : List Nat :=
  let body := m.unit_id % 256 :: m.function_code % 256 :: m.data.map (· % 256)
  let crc := crc16 body
  bStart :: bEscape (body ++ [crc % 256, crc / 256 % 256]) ++ [bEnd]

/-- Modelled from the spec: the Binary decoder of section 4.2 — scan for the
start delimiter discarding what precedes it, unescape while scanning for the
unescaped end delimiter, then require the CRC-16 over the unescaped body to
match the trailing two unescaped bytes. -/
def binaryTryDecode (buf : List Nat) : DecodeOutcome :=
  match buf.dropWhile (fun c => c ≠ bStart) with
  | [] => .incomplete
  | _ :: afterStart =>
    match binScan afterStart with
    | none => .incomplete
    | some (content, rest) =>
      if content.length < 4 then .invalid "frame too short"
      else
        let body := content.take (content.length - 2)
        let tail := content.drop (content.length - 2)
        let recv := tail.getD 0 0 + 256 * tail.getD 1 0
        if crc16 body ≠ recv then .invalid "crc mismatch"
        else
          match body with
          | u :: f :: rest2 => .complete ⟨u, f, rest2, none⟩ (buf.length - rest.length)
          | _ => .invalid "frame too short"

/-- The encoder of the codec variant selected by a header type. -/
def encode (ht : CommHeaderType) (m : Message) : List Nat :=
  match ht with
  | .SOCKET => socketEncode m
  | .TLS => tlsEncode m
  | .RTU => rtuEncode m
  | .ASCII => asciiEncode m
  | .BINARY => binaryEncode m

/-- The decoder of the codec variant selected by a header type. -/
def tryDecode (ht : CommHeaderType) (buf : List Nat) : DecodeOutcome :=
  match ht with
  | .SOCKET => socketTryDecode buf
  | .TLS => tlsTryDecode buf
  | .RTU => rtuTryDecode buf
  | .ASCII => asciiTryDecode buf
  | .BINARY => binaryTryDecode buf

/-- A well-formed message for a given encoding: all fields are byte- (or for
the transaction id, word-) sized, the data is within the protocol maximum,
and the transaction id is present exactly for the socket/TLS encodings. -/
def wellFormed (ht : CommHeaderType) (m : Message) : Bool :=
  decide (m.unit_id < 256) && decide (m.function_code < 256) &&
  m.data.all (fun b => decide (b < 256)) && decide (m.data.length ≤ 252) &&
  match ht with
  | .SOCKET | .TLS =>
    match m.transaction_id with
    | some t => decide (t < 65536)
    | none => false
  | _ => decide (m.transaction_id = none)

/-- Modelled from the spec: the Frame Assembler's feed loop of section 4.3,
over an arbitrary codec decoder `dec` and resynchronization rule `resync`:
repeatedly call the decoder, on Complete emit the message and drop the
consumed prefix, on Incomplete stop and keep the buffer, on Invalid
resynchronize and continue.  The loop is written with explicit fuel; the
termination theorem below shows fuel equal to the buffer length already
reaches the loop's final answer. -/
def feedLoop (dec : List Nat → DecodeOutcome) (resync : List Nat → List Nat) :
    Nat → List Nat → List Message × List Nat
  | 0, buf => ([], buf)
  | fuel + 1, buf =>
    match dec buf with
    | .complete m c =>
      let r := feedLoop dec resync fuel (buf.drop c)
      (m :: r.1, r.2)
    | .incomplete => ([], buf)
    | .invalid _ => feedLoop dec resync fuel (resync buf)

/-- The Frame Assembler's `feed(new_bytes)` of section 4.3: append the newly
arrived bytes to the buffer and run the decode loop, with fuel equal to the
combined buffer length. -/
def feed (dec : List Nat → DecodeOutcome) (resync : List Nat → List Nat)
    (buf new : List Nat) : List Message × List Nat :=
  feedLoop dec resync (buf ++ new).length (buf ++ new)

/-- The operations an existing `ModbusMessage` instance offers. -/
inductive MsgOp where
  | callbackData (data : List Nat) (addr : Option (Nat × Nat))
  | messageSend (data : List Nat) (addr : Option (Nat × Nat))
deriving Repr

/-- Run one operation on the instance state. -/
def applyOp (s : ModbusMessage) : MsgOp → ModbusMessage
  | .callbackData data addr => (s.callback_data data addr).1
  | .messageSend data addr => s.message_send data addr

/-- Run a sequence of operations on the instance state. -/
def runOps (ops : List MsgOp) (s : ModbusMessage) : ModbusMessage :=
  ops.foldl applyOp s

/-- The header object `ModbusMessage.__init__` is expected to select for a
given header type, spelled out variant by variant. -/
def expectedHeader (ht : CommHeaderType) (selfId : Nat) : ModbusHeader :=
  match ht with
  | .SOCKET => .HeaderSocket selfId
  | .TLS => .HeaderTLS selfId
  | .RTU => .HeaderRTU selfId
  | .ASCII => .HeaderASCII selfId
  | .BINARY => .HeaderBinary selfId

/-- Constructing a `ModbusMessage` always succeeds, with the state spelled
out: the dictionary lookup finds every header type. -/
theorem mk_eq (sid : Nat) (ht : CommHeaderType) (params : CommParams) (is_server : Bool) :
    mkModbusMessage sid ht params is_server =
      some { id := sid
             comm_params := initParams ht params
             is_server := is_server
             header := expectedHeader ht sid
             recv_buffer := []
             sent_log := [] } := by
  cases ht <;> rfl

/-- A sample configuration used by the concrete witnesses. -/
def exampleParams : CommParams := ⟨⟨"modbus server", 3⟩, none⟩

/-- The 12-byte MBAP frame of scenario 1 of the spec:
transaction 0x0001, unit 1, function 3, data 00 00 00 02. -/
def scenarioFrame : List Nat := [0, 1, 0, 0, 0, 6, 1, 3, 0, 0, 0, 2]

/-- The message scenario 1 of the spec says the frame decodes to. -/
def scenarioMsg : Message := ⟨1, 3, [0, 0, 0, 2], some 1⟩

/-- The server-role SOCKET instance obtained from `exampleParams`. -/
def exampleParent : ModbusMessage :=
  { id := 0
    comm_params := initParams CommHeaderType.SOCKET exampleParams
    is_server := true
    header := ModbusHeader.HeaderSocket 0
    recv_buffer := []
    sent_log := [] }

/-- Reducing bytes modulo 256 is the identity on byte-valued lists. -/
theorem map_mod_of_lt {l : List Nat} (h : ∀ b ∈ l, b < 256) : l.map (· % 256) = l := by
  induction l with
  | nil => rfl
  | cons b t ih =>
    simp only [List.map_cons]
    rw [Nat.mod_eq_of_lt (h b (by simp)), ih (fun x hx => h x (by simp [hx]))]

end PyModbus

namespace PyModbus

/-- C6: for every input byte sequence and every address,
`ModbusMessage.callback_data` returns 0, leaves the instance unchanged and
invokes no application callback; consequently the transport's delivery path
retains every accumulated byte and emits no message. -/
theorem callback_data_returns_zero :
    ∀ (s : ModbusMessage) (data : List Nat) (addr : Option (Nat × Nat)),
      s.callback_data data addr = (s, 0, []) ∧
      (s.data_received data).1.recv_buffer = s.recv_buffer ++ data ∧
      (s.data_received data).2 = [] := by
  intro s data addr
  exact ⟨rfl, rfl, rfl⟩

/-- C1: the code violates the claim — delivering a byte sequence that
contains a complete validated frame (scenario 1 of the spec) invokes no
application callback at all, even though the Socket codec decodes that very
byte sequence to a complete message, so the claimed "exactly one callback per
complete frame" does not happen. -/
theorem data_received_never_invokes_callback :
    (∀ s : ModbusMessage, (s.data_received scenarioFrame).2 = [] ∧
      (s.data_received scenarioFrame).1.recv_buffer = s.recv_buffer ++ scenarioFrame) ∧
    socketTryDecode scenarioFrame = .complete scenarioMsg 12 := by
  refine ⟨fun s => ⟨rfl, rfl⟩, ?_⟩
  decide

/-- C2: the code violates the claim — `ModbusMessage.message_send` hands the
caller's bytes to the transport verbatim, with no codec encoding applied,
while the Socket codec's encoding of the corresponding message is a different
byte sequence. -/
theorem message_send_forwards_input_verbatim :
    (∀ (s : ModbusMessage) (data : List Nat) (addr : Option (Nat × Nat)),
      (s.message_send data addr).sent_log = s.sent_log ++ [data]) ∧
    socketEncode scenarioMsg ≠ [1, 3, 0, 0, 0, 2] := by
  refine ⟨fun s data addr => rfl, ?_⟩
  decide

/-- C5: the header/codec variant selected at construction is never changed by
any subsequent sequence of `callback_data` / `message_send` operations. -/
theorem header_immutable_under_ops :
    ∀ (ops : List MsgOp) (s : ModbusMessage), (runOps ops s).header = s.header := by
  intro ops
  induction ops with
  | nil => intro s; rfl
  | cons op rest ih =>
    intro s
    have h1 : (applyOp s op).header = s.header := by cases op <;> rfl
    calc (runOps (op :: rest) s).header
        = (runOps rest (applyOp s op)).header := rfl
      _ = (applyOp s op).header := ih _
      _ = s.header := h1

/-- C8: for every header type, construction succeeds and binds the header
attribute to an instance of the matching header class whose `message`
attribute refers back to the constructed instance itself. -/
theorem construction_selects_matching_header (sid : Nat) (ht : CommHeaderType)
    (params : CommParams) (is_server : Bool) :
    ∃ m, mkModbusMessage sid ht params is_server = some m ∧
      m.id = sid ∧
      m.header = expectedHeader ht sid ∧
      m.header.variant = ht ∧
      m.header.message = m.id := by
  cases ht <;> exact ⟨_, rfl, rfl, rfl, rfl, rfl⟩

/-- C7: `ModbusMessage.__init__` overwrites `new_connection_class` on the
caller-supplied params with its factory before the superclass stores them
(the stored `comm_params` carry the factory), and every instance the factory
produces is constructed with `is_server = false`, whatever the parent's
role was. -/
theorem init_overwrites_factory (sid : Nat) (ht : CommHeaderType)
    (params : CommParams) (is_server : Bool) (m : ModbusMessage)
    (h : mkModbusMessage sid ht params is_server = some m) :
    m.comm_params = initParams ht params ∧
    m.comm_params.new_connection_class = some ⟨ht, params.base⟩ ∧
    ∀ (cid : Nat) (c : ModbusMessage),
      runFactory ⟨ht, params.base⟩ cid = some c → c.is_server = false := by
  rw [mk_eq] at h
  obtain rfl := Option.some.inj h
  refine ⟨rfl, rfl, ?_⟩
  intro cid c hc
  rw [show runFactory ⟨ht, params.base⟩ cid =
        mkModbusMessage cid ht ⟨params.base, some ⟨ht, params.base⟩⟩ false from rfl,
      mk_eq] at hc
  obtain rfl := Option.some.inj hc
  rfl

/-- Witness for C7 at a concrete server-role SOCKET construction. -/
theorem init_overwrites_factory_witness :
    exampleParent.comm_params = initParams CommHeaderType.SOCKET exampleParams ∧
    exampleParent.comm_params.new_connection_class =
      some ⟨CommHeaderType.SOCKET, exampleParams.base⟩ ∧
    ∀ (cid : Nat) (c : ModbusMessage),
      runFactory ⟨CommHeaderType.SOCKET, exampleParams.base⟩ cid = some c →
        c.is_server = false :=
  init_overwrites_factory 0 CommHeaderType.SOCKET exampleParams true exampleParent rfl

/-- C4: a server-role instance holds a connection factory, and every
invocation of that factory yields a new instance with the same header/codec
variant and the same configuration but fresh, independent per-connection
state (fresh identity, empty receive buffer, empty wire log). -/
theorem server_factory_spawns_equivalent_instance (sid : Nat) (ht : CommHeaderType)
    (params : CommParams) (p : ModbusMessage)
    (hp : mkModbusMessage sid ht params true = some p) :
    ∃ fac, p.comm_params.new_connection_class = some fac ∧
      ∀ cid, ∃ c, runFactory fac cid = some c ∧
        c.header.variant = p.header.variant ∧
        c.comm_params.base = p.comm_params.base ∧
        c.recv_buffer = [] ∧ c.sent_log = [] ∧ c.id = cid := by
  rw [mk_eq] at hp
  obtain rfl := Option.some.inj hp
  refine ⟨⟨ht, params.base⟩, rfl, ?_⟩
  intro cid
  refine ⟨_, mk_eq cid ht ⟨params.base, some ⟨ht, params.base⟩⟩ false, ?_, rfl, rfl, rfl, rfl⟩
  cases ht <;> rfl

/-- Witness for C4: the factory of the concrete server instance spawns an
equivalent fresh instance. -/
theorem server_factory_witness :
    ∃ fac, exampleParent.comm_params.new_connection_class = some fac ∧
      ∀ cid, ∃ c, runFactory fac cid = some c ∧
        c.header.variant = exampleParent.header.variant ∧
        c.comm_params.base = exampleParent.comm_params.base ∧
        c.recv_buffer = [] ∧ c.sent_log = [] ∧ c.id = cid :=
  server_factory_spawns_equivalent_instance 0 CommHeaderType.SOCKET exampleParams
    exampleParent rfl

set_option maxRecDepth 4000 in
/-- C9: for every byte sequence, `lrc` is the two's-complement, as an 8-bit
value, of the sum of all bytes modulo 256, and adding it to the byte sum is
congruent to 0 modulo 256. -/
theorem lrc_is_twos_complement_of_sum :
    ∀ bs : List Nat,
      lrc bs = (256 - bs.foldl (· + ·) 0 % 256) % 256 ∧
      (bs.foldl (· + ·) 0 + lrc bs) % 256 = 0 := by
  intro bs
  have h256 : bs.foldl (· + ·) 0 % 256 < 256 := Nat.mod_lt _ (by omega)
  have hx : ∀ x : Fin 256, ((x.val ^^^ 255) + 1) % 256 = (256 - x.val) % 256 := by decide
  have h1 : lrc bs = (256 - bs.foldl (· + ·) 0 % 256) % 256 := hx ⟨_, h256⟩
  exact ⟨h1, by rw [h1]; omega⟩

theorem crc16Round_lt {c : Nat} (h : c < 65536) : crc16Round c < 65536 := by
  unfold crc16Round
  split
  · have h1 : c / 2 < 2 ^ 16 := by omega
    have h2 : (0xA001 : Nat) < 2 ^ 16 := by norm_num
    have := Nat.xor_lt_two_pow h1 h2
    simpa using this
  · omega

theorem crc16_iterate_lt (n : Nat) {c : Nat} (h : c < 65536) : crc16Round^[n] c < 65536 := by
  induction n generalizing c with
  | zero => simpa
  | succ k ih =>
    rw [Function.iterate_succ_apply]
    exact ih (crc16Round_lt h)

theorem crc16Byte_lt {c : Nat} (b : Nat) (h : c < 65536) : crc16Byte c b < 65536 := by
  unfold crc16Byte
  apply crc16_iterate_lt
  have h1 : c < 2 ^ 16 := by omega
  have h2 : b % 256 < 2 ^ 16 := by have := Nat.mod_lt b (show 0 < 256 by omega); omega
  have := Nat.xor_lt_two_pow h1 h2
  omega

theorem crc16_foldl_lt (bs : List Nat) : ∀ acc, acc < 65536 → bs.foldl crc16Byte acc < 65536 := by
  induction bs with
  | nil => intro acc h; simpa
  | cons b t ih =>
    intro acc h
    simpa using ih _ (crc16Byte_lt b h)

theorem crc16_lt (bs : List Nat) : crc16 bs < 65536 :=
  crc16_foldl_lt bs 0xFFFF (by norm_num)

theorem rtu_round_trip (m : Message) (h : wellFormed CommHeaderType.RTU m = true) :
    rtuTryDecode (rtuEncode m) = .complete m (rtuEncode m).length := by
  obtain ⟨u, f, d, tid⟩ := m
  simp only [wellFormed, Bool.and_eq_true, decide_eq_true_eq, List.all_eq_true] at h
  obtain ⟨⟨⟨⟨hu, hf⟩, hd⟩, hl⟩, htt⟩ := h
  subst htt
  have hd' : ∀ b ∈ d, b < 256 := fun b hb => by simpa using hd b hb
  have hmap : d.map (· % 256) = d := map_mod_of_lt hd'
  have hu' : u % 256 = u := Nat.mod_eq_of_lt hu
  have hf' : f % 256 = f := Nat.mod_eq_of_lt hf
  simp only [rtuEncode, hmap, hu', hf']
  have hc := crc16_lt (u :: f :: d)
  set c := crc16 (u :: f :: d) with hcdef
  have hlen : ((u :: f :: d) ++ [c % 256, c / 256 % 256]).length = d.length + 4 := by
    simp
  simp only [rtuTryDecode, hlen]
  rw [if_neg (by omega)]
  have hsub : d.length + 4 - 2 = (u :: f :: d : List Nat).length := by simp
  rw [hsub, List.take_left, List.drop_left]
  have hrecv : (([c % 256, c / 256 % 256] : List Nat).getD 0 0 +
      256 * ([c % 256, c / 256 % 256] : List Nat).getD 1 0) = c := by
    simp [List.getD]
    omega
  rw [hrecv]
  rw [if_neg (by simp)]

/-- Round trip for the Socket (MBAP) codec: decoding an encoded well-formed
message yields the message back, consuming the whole frame. -/
theorem socket_round_trip (m : Message) (h : wellFormed CommHeaderType.SOCKET m = true) :
    socketTryDecode (socketEncode m) = .complete m (socketEncode m).length := by
  obtain ⟨u, f, d, tid⟩ := m
  cases tid with
  | none => simp [wellFormed] at h
  | some t =>
    simp only [wellFormed, Bool.and_eq_true, decide_eq_true_eq, List.all_eq_true] at h
    obtain ⟨⟨⟨⟨hu, hf⟩, hd⟩, hl⟩, htt⟩ := h
    have hd' : ∀ b ∈ d, b < 256 := fun b hb => by simpa using hd b hb
    have hmap : d.map (· % 256) = d := map_mod_of_lt hd'
    have hu' : u % 256 = u := Nat.mod_eq_of_lt hu
    have hf' : f % 256 = f := Nat.mod_eq_of_lt hf
    have hlen1 : (2 + d.length) / 256 % 256 = 0 := by omega
    have hlen2 : (2 + d.length) % 256 = 2 + d.length := by omega
    have ht1 : t / 256 % 256 = t / 256 := by omega
    simp only [socketEncode, Option.getD, hmap, hu', hf', hlen1, hlen2, ht1]
    simp only [socketTryDecode]
    rw [if_neg (by simp)]
    rw [if_neg (by simp [maxSocketLength]; omega)]
    rw [if_neg (by simp; omega)]
    have h2 : 256 * 0 + (2 + d.length) - 2 = d.length := by omega
    simp only [h2, List.take_length]
    have h3 : 256 * (t / 256) + t % 256 = t := by omega
    simp only [h3]
    simp [List.length_cons]
    omega

theorem hexVal_hexDigit {n : Nat} (h : n < 16) : hexVal (hexDigit n) = n := by
  have hfin : ∀ x : Fin 16, hexVal (hexDigit x.val) = x.val := by decide
  exact hfin ⟨n, h⟩

theorem isHexDigit_hexDigit {n : Nat} (h : n < 16) : isHexDigit (hexDigit n) = true := by
  have hfin : ∀ x : Fin 16, isHexDigit (hexDigit x.val) = true := by decide
  exact hfin ⟨n, h⟩

theorem hexDigit_ne_cr {n : Nat} (h : n < 16) : hexDigit n ≠ 13 := by
  have hfin : ∀ x : Fin 16, hexDigit x.val ≠ 13 := by decide
  exact hfin ⟨n, h⟩

theorem hexPair_mem_ne_cr {b c : Nat} (hc : c ∈ hexPair b) : c ≠ 13 := by
  simp only [hexPair, List.mem_cons, List.not_mem_nil, or_false] at hc
  rcases hc with rfl | rfl
  · exact hexDigit_ne_cr (Nat.mod_lt _ (by omega))
  · exact hexDigit_ne_cr (Nat.mod_lt _ (by omega))

theorem findCRLF_no_cr {l : List Nat} (h : ∀ c ∈ l, c ≠ 13) (r : List Nat) :
    findCRLF (l ++ 13 :: 10 :: r) = some (l, r) := by
  induction l with
  | nil => simp [findCRLF]
  | cons c t ih =>
    have hc : c ≠ 13 := h c (by simp)
    have ht : ∀ x ∈ t, x ≠ 13 := fun x hx => h x (by simp [hx])
    simp only [List.cons_append, findCRLF]
    rw [if_neg (by simp [hc])]
    simp [ih ht]

theorem hexDecode_flatMap {bs : List Nat} (h : ∀ b ∈ bs, b < 256) :
    hexDecode (bs.flatMap hexPair) = some bs := by
  induction bs with
  | nil => rfl
  | cons b t ih =>
    have hb : b < 256 := h b (by simp)
    have ht : ∀ x ∈ t, x < 256 := fun x hx => h x (by simp [hx])
    have h1 : b / 16 % 16 < 16 := Nat.mod_lt _ (by omega)
    have h2 : b % 16 < 16 := Nat.mod_lt _ (by omega)
    simp only [List.flatMap_cons]
    show hexDecode (hexDigit (b / 16 % 16) :: hexDigit (b % 16) :: t.flatMap hexPair) = _
    simp only [hexDecode, isHexDigit_hexDigit h1, isHexDigit_hexDigit h2, Bool.and_self,
      if_pos, ih ht, Option.map_some, hexVal_hexDigit h1, hexVal_hexDigit h2]
    have hb2 : 16 * (b / 16 % 16) + b % 16 = b := by omega
    simp [hb2]

theorem ascii_round_trip (m : Message) (h : wellFormed CommHeaderType.ASCII m = true) :
    asciiTryDecode (asciiEncode m) = .complete m (asciiEncode m).length := by
  obtain ⟨u, f, d, tid⟩ := m
  simp only [wellFormed, Bool.and_eq_true, decide_eq_true_eq, List.all_eq_true] at h
  obtain ⟨⟨⟨⟨hu, hf⟩, hd⟩, hl⟩, htt⟩ := h
  subst htt
  have hd' : ∀ b ∈ d, b < 256 := fun b hb => by simpa using hd b hb
  have hmap : d.map (· % 256) = d := map_mod_of_lt hd'
  have hu' : u % 256 = u := Nat.mod_eq_of_lt hu
  have hf' : f % 256 = f := Nat.mod_eq_of_lt hf
  simp only [asciiEncode, hmap, hu', hf']
  set body : List Nat := u :: f :: d with hbody
  set lb := lrc body with hlb
  set hexB := (body ++ [lb]).flatMap hexPair with hhexB
  have hbytes : ∀ b ∈ body ++ [lb], b < 256 := by
    intro b hb
    simp only [hbody, List.mem_append, List.mem_cons, List.not_mem_nil, or_false] at hb
    rcases hb with (rfl | rfl | hmem) | rfl
    · exact hu
    · exact hf
    · exact hd' b hmem
    · exact Nat.mod_lt _ (by omega)
  have hnc : ∀ c ∈ hexB, c ≠ 13 := by
    intro c hc
    simp only [hhexB, List.mem_flatMap] at hc
    obtain ⟨b, _, hcb⟩ := hc
    exact hexPair_mem_ne_cr hcb
  have hdw : (58 :: (hexB ++ [13, 10])).dropWhile (fun c => c ≠ 58) =
      58 :: (hexB ++ [13, 10]) := by
    rw [List.dropWhile_cons_of_neg]
    simp
  have hfind : findCRLF (hexB ++ [13, 10]) = some (hexB, []) := by
    simpa using findCRLF_no_cr hnc ([] : List Nat)
  have hdec : hexDecode hexB = some (body ++ [lb]) := by
    rw [hhexB]
    exact hexDecode_flatMap hbytes
  show asciiTryDecode (58 :: (hexB ++ [13, 10])) = _
  simp only [asciiTryDecode, hdw, hfind, hdec]
  rcases hdl : d ++ [lb] with _ | ⟨t1, trest⟩
  · simp at hdl
  · have hsh : body ++ [lb] = u :: f :: t1 :: trest := by
      simp [hbody, hdl]
    simp only [hsh]
    have hdrop : (t1 :: trest).dropLast = d := by
      rw [← hdl]
      simp
    have hlast : (t1 :: trest).getLastD 0 = lb := by
      rw [← hdl]
      simp
    have hcond : lrc (u :: f :: (t1 :: trest).dropLast) = (t1 :: trest).getLastD 0 := by
      rw [hdrop, hlast, hlb]
    rw [if_pos hcond]
    simp [hdrop]

theorem binScan_bEscape (bs : List Nat) : ∀ r : List Nat,
    binScan (bEscape bs ++ bEnd :: r) = some (bs, r) := by
  induction bs with
  | nil =>
    intro r
    show binScan (bEnd :: r) = some ([], r)
    rw [binScan.eq_def]
    dsimp only
    rw [if_neg (by simp [bEnd, bEsc]), if_pos rfl]
  | cons b t ih =>
    intro r
    by_cases hb : b = bStart ∨ b = bEnd ∨ b = bEsc
    · have hs : bEscape (b :: t) = bEsc :: b :: bEscape t := by
        simp [bEscape, hb]
      rw [hs, List.cons_append, List.cons_append, binScan.eq_def]
      dsimp only
      rw [if_pos rfl]
      rw [ih r]
      rfl
    · push_neg at hb
      obtain ⟨h1, h2, h3⟩ := hb
      have hs : bEscape (b :: t) = b :: bEscape t := by
        simp [bEscape, h1, h2, h3]
      rw [hs, List.cons_append, binScan.eq_def]
      dsimp only
      rw [if_neg h3, if_neg h2]
      rw [ih r]
      rfl

theorem binary_round_trip (m : Message) (h : wellFormed CommHeaderType.BINARY m = true) :
    binaryTryDecode (binaryEncode m) = .complete m (binaryEncode m).length := by
  obtain ⟨u, f, d, tid⟩ := m
  simp only [wellFormed, Bool.and_eq_true, decide_eq_true_eq, List.all_eq_true] at h
  obtain ⟨⟨⟨⟨hu, hf⟩, hd⟩, hl⟩, htt⟩ := h
  subst htt
  have hd' : ∀ b ∈ d, b < 256 := fun b hb => by simpa using hd b hb
  have hmap : d.map (· % 256) = d := map_mod_of_lt hd'
  have hu' : u % 256 = u := Nat.mod_eq_of_lt hu
  have hf' : f % 256 = f := Nat.mod_eq_of_lt hf
  simp only [binaryEncode, hmap, hu', hf']
  set body : List Nat := u :: f :: d with hbody
  have hc := crc16_lt body
  set c := crc16 body with hcdef
  set inner : List Nat := body ++ [c % 256, c / 256 % 256] with hinner
  have hdw : (bStart :: (bEscape inner ++ [bEnd])).dropWhile (fun x => x ≠ bStart) =
      bStart :: (bEscape inner ++ [bEnd]) := by
    rw [List.dropWhile_cons_of_neg]
    simp
  have hscan : binScan (bEscape inner ++ [bEnd]) = some (inner, []) := by
    simpa using binScan_bEscape inner []
  show binaryTryDecode (bStart :: (bEscape inner ++ [bEnd])) = _
  simp only [binaryTryDecode, hdw, hscan]
  have hilen : inner.length = d.length + 4 := by
    simp [hinner, hbody]
  rw [if_neg (by rw [hilen]; omega)]
  have hsub : inner.length - 2 = (body : List Nat).length := by
    rw [hilen]
    simp [hbody]
  rw [hsub, hinner, List.take_left, List.drop_left]
  have hrecv : (([c % 256, c / 256 % 256] : List Nat).getD 0 0 +
      256 * ([c % 256, c / 256 % 256] : List Nat).getD 1 0) = c := by
    simp [List.getD]
    omega
  rw [hrecv]
  rw [if_neg (by simp [hcdef])]
  simp [hbody]

/-- C3: for every encoding and every well-formed message, decoding the bytes
produced by encoding the message yields exactly the message back (consuming
the whole frame): decode(encode(m)) == m. -/
theorem round_trip (ht : CommHeaderType) (m : Message) (h : wellFormed ht m = true) :
    tryDecode ht (encode ht m) = .complete m (encode ht m).length := by
  cases ht
  · exact socket_round_trip m h
  · exact socket_round_trip m h
  · exact rtu_round_trip m h
  · exact ascii_round_trip m h
  · exact binary_round_trip m h

/-- A well-formed message without a transaction id, for the serial codecs. -/
def plainMsg : Message := ⟨1, 3, [0, 0, 0, 2], none⟩

/-- Witness for C3: the round trip at scenario 1 of the spec for Socket and
TLS, and at the same payload without transaction id for RTU, ASCII and
Binary. -/
theorem round_trip_witness :
    (wellFormed CommHeaderType.SOCKET scenarioMsg = true ∧
      tryDecode CommHeaderType.SOCKET (encode CommHeaderType.SOCKET scenarioMsg) =
        .complete scenarioMsg (encode CommHeaderType.SOCKET scenarioMsg).length) ∧
    (wellFormed CommHeaderType.TLS scenarioMsg = true ∧
      tryDecode CommHeaderType.TLS (encode CommHeaderType.TLS scenarioMsg) =
        .complete scenarioMsg (encode CommHeaderType.TLS scenarioMsg).length) ∧
    (wellFormed CommHeaderType.RTU plainMsg = true ∧
      tryDecode CommHeaderType.RTU (encode CommHeaderType.RTU plainMsg) =
        .complete plainMsg (encode CommHeaderType.RTU plainMsg).length) ∧
    (wellFormed CommHeaderType.ASCII plainMsg = true ∧
      tryDecode CommHeaderType.ASCII (encode CommHeaderType.ASCII plainMsg) =
        .complete plainMsg (encode CommHeaderType.ASCII plainMsg).length) ∧
    (wellFormed CommHeaderType.BINARY plainMsg = true ∧
      tryDecode CommHeaderType.BINARY (encode CommHeaderType.BINARY plainMsg) =
        .complete plainMsg (encode CommHeaderType.BINARY plainMsg).length) :=
  ⟨⟨by decide, round_trip CommHeaderType.SOCKET scenarioMsg (by decide)⟩,
   ⟨by decide, round_trip CommHeaderType.TLS scenarioMsg (by decide)⟩,
   ⟨by decide, round_trip CommHeaderType.RTU plainMsg (by decide)⟩,
   ⟨by decide, round_trip CommHeaderType.ASCII plainMsg (by decide)⟩,
   ⟨by decide, round_trip CommHeaderType.BINARY plainMsg (by decide)⟩⟩

/-- A Complete outcome of the Socket decoder consumes at least one byte and
never more than the buffer holds. -/
theorem socket_complete_bounds (b : List Nat) (m : Message) (c : Nat)
    (h : socketTryDecode b = .complete m c) : 0 < c ∧ c ≤ b.length := by
  rcases b with _ | ⟨b0, b⟩
  · simp [socketTryDecode] at h
  rcases b with _ | ⟨b1, b⟩
  · simp [socketTryDecode] at h
  rcases b with _ | ⟨b2, b⟩
  · simp [socketTryDecode] at h
  rcases b with _ | ⟨b3, b⟩
  · simp [socketTryDecode] at h
  rcases b with _ | ⟨b4, b⟩
  · simp [socketTryDecode] at h
  rcases b with _ | ⟨b5, rest⟩
  · simp [socketTryDecode] at h
  simp only [socketTryDecode] at h
  split_ifs at h
  rcases rest with _ | ⟨u, _ | ⟨f, tail⟩⟩
  · exact absurd h (by simp)
  · exact absurd h (by simp)
  · obtain ⟨hm, hc⟩ := DecodeOutcome.complete.inj h
    subst hc
    simp only [List.length_cons] at *
    omega

/-- The Socket decoder only reports Invalid on a nonempty buffer. -/
theorem socket_invalid_nonempty (b : List Nat) (r : String)
    (h : socketTryDecode b = .invalid r) : 0 < b.length := by
  rcases b with _ | ⟨b0, b⟩
  · simp [socketTryDecode] at h
  simp

/-- An auxiliary for C10: under the spec's progress assumptions on the codec
(a Complete outcome consumes a positive number of buffered bytes, an Invalid
resynchronization strictly shrinks the buffer), the feed loop's result is
independent of the fuel once the fuel reaches the buffer length. -/
theorem feedLoop_fuel_stable (dec : List Nat → DecodeOutcome)
    (resync : List Nat → List Nat)
    (Hc : ∀ b m c, dec b = .complete m c → 0 < c ∧ c ≤ b.length)
    (Hr : ∀ b r, dec b = .invalid r → (resync b).length < b.length) :
    ∀ (n : Nat) (buf : List Nat), buf.length ≤ n →
      ∀ f1 f2, buf.length ≤ f1 → buf.length ≤ f2 →
        feedLoop dec resync f1 buf = feedLoop dec resync f2 buf := by
  have hnil : ∀ fl, feedLoop dec resync fl [] = ([], []) := by
    intro fl
    cases fl with
    | zero => rfl
    | succ k =>
      cases hdec : dec [] with
      | complete m c =>
        have hb := Hc [] m c hdec
        simp at hb
        omega
      | incomplete => simp [feedLoop, hdec]
      | invalid r =>
        have hb := Hr [] r hdec
        simp at hb
  intro n
  induction n with
  | zero =>
    intro buf hb f1 f2 h1 h2
    have hbuf : buf = [] := List.eq_nil_of_length_eq_zero (Nat.le_zero.mp hb)
    subst hbuf
    rw [hnil, hnil]
  | succ k ih =>
    intro buf hb f1 f2 h1 h2
    rcases List.eq_nil_or_concat buf with hbuf | ⟨_, _, hbuf⟩
    · subst hbuf
      rw [hnil, hnil]
    · have hpos : 0 < buf.length := by
        subst hbuf
        simp
      cases f1 with
      | zero => omega
      | succ k1 =>
        cases f2 with
        | zero => omega
        | succ k2 =>
          cases hdec : dec buf with
          | complete m c =>
            obtain ⟨hc0, hcl⟩ := Hc buf m c hdec
            have hdl : (buf.drop c).length = buf.length - c := List.length_drop c buf
            have hrec : feedLoop dec resync k1 (buf.drop c) =
                feedLoop dec resync k2 (buf.drop c) := by
              apply ih (buf.drop c) (by omega) k1 k2 (by omega) (by omega)
            simp [feedLoop, hdec, hrec]
          | incomplete => simp [feedLoop, hdec]
          | invalid r =>
            have hrl := Hr buf r hdec
            have hrec : feedLoop dec resync k1 (resync buf) =
                feedLoop dec resync k2 (resync buf) := by
              apply ih (resync buf) (by omega) k1 k2 (by omega) (by omega)
            simp [feedLoop, hdec, hrec]

/-- C10: the Frame Assembler's feed loop (append the delivered bytes, then
repeatedly try to decode, consuming on Complete, stopping on Incomplete,
resynchronizing on Invalid) terminates: under the spec's progress
assumptions, running it with any fuel at least the buffer length — in
particular unboundedly more iterations — produces exactly the result `feed`
reaches within buffer-length iterations. -/
theorem feed_loop_terminates (dec : List Nat → DecodeOutcome)
    (resync : List Nat → List Nat)
    (Hc : ∀ b m c, dec b = .complete m c → 0 < c ∧ c ≤ b.length)
    (Hr : ∀ b r, dec b = .invalid r → (resync b).length < b.length)
    (buf new : List Nat) (fuel : Nat) (hf : (buf ++ new).length ≤ fuel) :
    feedLoop dec resync fuel (buf ++ new) = feed dec resync buf new :=
  feedLoop_fuel_stable dec resync Hc Hr (buf ++ new).length (buf ++ new) le_rfl
    fuel (buf ++ new).length hf le_rfl

/-- Witness for C10: feeding two concatenated Socket frames with surplus
fuel gives the same answer as the bounded loop, using the Socket decoder as
the codec with connection-drop resynchronization. -/
theorem feed_loop_terminates_witness :
    feedLoop socketTryDecode (fun _ => []) 30 (scenarioFrame ++ scenarioFrame) =
      feed socketTryDecode (fun _ => []) scenarioFrame scenarioFrame :=
  feed_loop_terminates socketTryDecode (fun _ => [])
    (fun b m c h => socket_complete_bounds b m c h)
    (fun b r h => by simpa using socket_invalid_nonempty b r h)
    scenarioFrame scenarioFrame 30 (by decide)

end PyModbus
